import Mathlib

/-!
A verification development for the shredstream-decoder repository.

The definitions below are shallow embeddings, translated from the Rust
sources:
  * `src/decoder/byte_parser.rs`   — the byte-walker primitives;
  * `src/shreds_processing.rs`     — FEC-block assembly and the
    signer/writable role derivation of
    `deserialize_versioned_transaction_with_resolved_keys`;
  * `src/address_lookup_table_cache.rs` — the ALT cache and
    `resolve_address_lookups`;
  * `src/utils.rs`                 — `create_standardized_instruction`;
  * `src/main.rs`                  — the two periodic sweeper tasks.

Machine integers are modelled as `Nat` (byte values are `0 ≤ b < 256`);
`Instant` timestamps are modelled as `Nat` seconds; fallible Rust code
returns `Except`.
-/

/-! ## Byte-walker primitives (`src/decoder/byte_parser.rs`)

Each Rust primitive has signature `fn(data: &[u8], offset: &mut usize) ->
Result<T, String>`.  The embedding returns the pair of the `Result` and the
final value of `*offset*`, so that offset mutation on the error path is
observable. -/

/-- A byte buffer — the Rust `&[u8]`.  Entries are byte values `0 ≤ b < 256`. -/
abbrev Bytes := List Nat

/-- Whether an `Except` result is the `ok` branch (the Rust `Result::is_ok`). -/
def exceptOk : Except ε α → Bool
  | .ok _ => true
  | .error _ => false

@[simp] theorem exceptOk_ok (a : α) : exceptOk (ε := ε) (.ok a) = true := rfl

@[simp] theorem exceptOk_error (e : ε) : exceptOk (α := α) (.error e) = false := rfl

/-- Little-endian value of a byte list (`uN::from_le_bytes`). -/
def leVal (bs : List Nat) : Nat := bs.foldr (fun b acc => b + 256 * acc) 0

/-- `parse_u8`: 1 byte. -/
def parse_u8 (data : Bytes) (offset : Nat) : Except String Nat × Nat :=
  if data.length < offset + 1 then (.error "Insufficient data for u8", offset)
  else (.ok (data.getD offset 0), offset + 1)

/-- `parse_u16`: 2 bytes little endian. -/
def parse_u16 (data : Bytes) (offset : Nat) : Except String Nat × Nat :=
  if data.length < offset + 2 then (.error "Insufficient data for u16", offset)
  else (.ok (leVal ((data.drop offset).take 2)), offset + 2)

/-- `parse_u32`: 4 bytes little endian. -/
def parse_u32 (data : Bytes) (offset : Nat) : Except String Nat × Nat :=
  if data.length < offset + 4 then (.error "Insufficient data for u32", offset)
  else (.ok (leVal ((data.drop offset).take 4)), offset + 4)

/-- `parse_u64`: 8 bytes little endian. -/
def parse_u64 (data : Bytes) (offset : Nat) : Except String Nat × Nat :=
  if data.length < offset + 8 then (.error "Insufficient data for u64", offset)
  else (.ok (leVal ((data.drop offset).take 8)), offset + 8)

/-- `parse_i32`: 4 bytes little endian, reinterpreted as a signed 32-bit value. -/
def parse_i32 (data : Bytes) (offset : Nat) : Except String Int × Nat :=
  if data.length < offset + 4 then (.error "Insufficient data for i32", offset)
  else
    let raw := leVal ((data.drop offset).take 4)
    (.ok (if raw < 2 ^ 31 then (raw : Int) else (raw : Int) - 2 ^ 32), offset + 4)

/-- `parse_bool`: 1 byte, non-zero means `true`. -/
def parse_bool (data : Bytes) (offset : Nat) : Except String Bool × Nat :=
  if data.length < offset + 1 then (.error "Insufficient data for bool", offset)
  else (.ok (data.getD offset 0 != 0), offset + 1)

/-- `parse_pubkey`: 32 bytes.  A `Pubkey` is modelled as its byte list. -/
def parse_pubkey (data : Bytes) (offset : Nat) : Except String Bytes × Nat :=
  if data.length < offset + 32 then (.error "Insufficient data for pubkey", offset)
  else (.ok ((data.drop offset).take 32), offset + 32)

/-- UTF-8 validity, one byte at a time.  The state is the number of pending
continuation bytes together with the admissible range `[lo, hi]` for the next
byte; this is the classification used by Rust's `String::from_utf8`
(rejecting overlong forms, surrogates and code points above `U+10FFFF`). -/
def utf8ValidFrom : Nat → Nat → Nat → List Nat → Bool
  | 0, _, _, [] => true
  | _ + 1, _, _, [] => false
  | 0, _, _, b :: rest =>
    if b < 0x80 then utf8ValidFrom 0 0 0 rest
    else if b < 0xC2 then false
    else if b < 0xE0 then utf8ValidFrom 1 0x80 0xBF rest
    else if b = 0xE0 then utf8ValidFrom 2 0xA0 0xBF rest
    else if b = 0xED then utf8ValidFrom 2 0x80 0x9F rest
    else if b < 0xF0 then utf8ValidFrom 2 0x80 0xBF rest
    else if b = 0xF0 then utf8ValidFrom 3 0x90 0xBF rest
    else if b < 0xF4 then utf8ValidFrom 3 0x80 0xBF rest
    else if b = 0xF4 then utf8ValidFrom 3 0x80 0x8F rest
    else false
  | n + 1, lo, hi, b :: rest =>
    if lo ≤ b ∧ b ≤ hi then utf8ValidFrom n 0x80 0xBF rest else false

/-- Whether a byte list is valid UTF-8 (`String::from_utf8` succeeds). -/
def utf8Valid (l : List Nat) : Bool := utf8ValidFrom 0 0 0 l

/-- `parse_string`: u32 LE length prefix, then that many UTF-8 bytes.  The
decoded string is modelled by its byte list.  Note the Rust source advances
`offset` by 4 *before* checking that the string body fits. -/
def parse_string (data : Bytes) (offset : Nat) : Except String Bytes × Nat :=
  if data.length < offset + 4 then
    (.error "Insufficient data for string length", offset)
  else
    let strLen := leVal ((data.drop offset).take 4)
    let offset1 := offset + 4
    if data.length < offset1 + strLen then
      (.error "Insufficient data for string", offset1)
    else
      let raw := (data.drop offset1).take strLen
      if utf8Valid raw then (.ok raw, offset1 + strLen)
      else (.error "Failed to parse string as UTF-8", offset1)

/-- `parse_option_u64`: 1-byte Borsh tag (`0` = None, `1` = Some) then,
for tag `1`, a `u64`.  Any other tag is an error. -/
def parse_option_u64 (data : Bytes) (offset : Nat) :
    Except String (Option Nat) × Nat :=
  match parse_u8 data offset with
  | (.error e, offset1) => (.error e, offset1)
  | (.ok tag, offset1) =>
    if tag = 0 then (.ok none, offset1)
    else if tag = 1 then
      match parse_u64 data offset1 with
      | (.error e, offset2) => (.error e, offset2)
      | (.ok v, offset2) => (.ok (some v), offset2)
    else (.error "Invalid Option discriminant", offset1)

/-- The element loop of `parse_vec`: parse `count` elements with the element
primitive `p`, threading the offset; the first element error aborts. -/
def parseElems (p : Bytes → Nat → Except String α × Nat) (data : Bytes) :
    Nat → Nat → Except String (List α) × Nat
  | 0, offset => (.ok [], offset)
  | count + 1, offset =>
    match p data offset with
    | (.error e, offset1) => (.error e, offset1)
    | (.ok v, offset1) =>
      match parseElems p data count offset1 with
      | (.error e, offset2) => (.error e, offset2)
      | (.ok vs, offset2) => (.ok (v :: vs), offset2)

/-- `parse_vec`: u32 LE element count, then that many elements parsed by the
element primitive `p`. -/
def parse_vec (p : Bytes → Nat → Except String α × Nat) (data : Bytes)
    (offset : Nat) : Except String (List α) × Nat :=
  match parse_u32 data offset with
  | (.error e, offset1) => (.error e, offset1)
  | (.ok vlen, offset1) => parseElems p data vlen offset1

/-- `parse_vec_u64`. -/
def parse_vec_u64 (data : Bytes) (offset : Nat) : Except String (List Nat) × Nat :=
  parse_vec parse_u64 data offset

/-! ### Offset discipline of the byte-walker primitives (claim C4) -/

theorem parse_u8_offset (data : Bytes) (offset : Nat) :
    (parse_u8 data offset).2 =
      if exceptOk (parse_u8 data offset).1 then offset + 1 else offset := by
  unfold parse_u8; split <;> simp

theorem parse_u16_offset (data : Bytes) (offset : Nat) :
    (parse_u16 data offset).2 =
      if exceptOk (parse_u16 data offset).1 then offset + 2 else offset := by
  unfold parse_u16; split <;> simp

theorem parse_u32_offset (data : Bytes) (offset : Nat) :
    (parse_u32 data offset).2 =
      if exceptOk (parse_u32 data offset).1 then offset + 4 else offset := by
  unfold parse_u32; split <;> simp

theorem parse_u64_offset (data : Bytes) (offset : Nat) :
    (parse_u64 data offset).2 =
      if exceptOk (parse_u64 data offset).1 then offset + 8 else offset := by
  unfold parse_u64; split <;> simp

theorem parse_i32_offset (data : Bytes) (offset : Nat) :
    (parse_i32 data offset).2 =
      if exceptOk (parse_i32 data offset).1 then offset + 4 else offset := by
  unfold parse_i32; split <;> simp

theorem parse_bool_offset (data : Bytes) (offset : Nat) :
    (parse_bool data offset).2 =
      if exceptOk (parse_bool data offset).1 then offset + 1 else offset := by
  unfold parse_bool; split <;> simp

theorem parse_pubkey_offset (data : Bytes) (offset : Nat) :
    (parse_pubkey data offset).2 =
      if exceptOk (parse_pubkey data offset).1 then offset + 32 else offset := by
  unfold parse_pubkey; split <;> simp

theorem parse_string_offset (data : Bytes) (offset : Nat) :
    (parse_string data offset).2 =
      if exceptOk (parse_string data offset).1 then
        offset + 4 + leVal ((data.drop offset).take 4)
      else if data.length < offset + 4 then offset else offset + 4 := by
  unfold parse_string
  by_cases h1 : data.length < offset + 4
  · simp [h1]
  · simp only [h1, if_false, if_neg h1]
    by_cases h2 : data.length < offset + 4 + leVal ((data.drop offset).take 4)
    · simp [h2]
    · by_cases h3 : utf8Valid ((data.drop (offset + 4)).take (leVal ((data.drop offset).take 4)))
      · simp [h2, h3]
      · simp [h2, h3]

theorem parse_option_u64_offset (data : Bytes) (offset : Nat) :
    (parse_option_u64 data offset).2 =
      if exceptOk (parse_option_u64 data offset).1 then
        (if data.getD offset 0 = 1 then offset + 9 else offset + 1)
      else if data.length < offset + 1 then offset else offset + 1 := by
  unfold parse_option_u64 parse_u8 parse_u64
  by_cases h1 : data.length < offset + 1
  · simp [h1]
  · simp only [h1, if_neg h1, if_false]
    by_cases h0 : data[offset]?.getD 0 = 0
    · simp [h0]
    · by_cases hone : data[offset]?.getD 0 = 1
      · by_cases h2 : data.length < offset + 1 + 8
        · simp [h0, hone, h2]
        · simp [h0, hone, h2]
      · simp [h0, hone]

theorem parseElems_u64_offset (data : Bytes) (count offset : Nat) :
    (parseElems parse_u64 data count offset).2 =
      offset + 8 * min count ((data.length - offset) / 8) := by
  induction count generalizing offset with
  | zero => simp [parseElems]
  | succ n ih =>
    unfold parseElems
    by_cases h : data.length < offset + 8
    · have hp : parse_u64 data offset = (.error "Insufficient data for u64", offset) := by
        unfold parse_u64; rw [if_pos h]
      have hdiv : (data.length - offset) / 8 = 0 := by
        apply Nat.div_eq_of_lt; omega
      rw [hp]
      simp [hdiv]
    · have hp : parse_u64 data offset =
          (.ok (leVal ((data.drop offset).take 8)), offset + 8) := by
        unfold parse_u64; rw [if_neg h]
      have hdiv : (data.length - offset) / 8 = (data.length - (offset + 8)) / 8 + 1 := by
        have h9 : data.length - offset = data.length - (offset + 8) + 8 := by omega
        rw [h9, Nat.add_div_right _ (by norm_num)]
      rw [hp, hdiv]
      rcases hres : parseElems parse_u64 data n (offset + 8) with ⟨r, o2⟩
      have h2 := ih (offset + 8)
      rw [hres] at h2
      cases r <;> simp [hres, Nat.succ_min_succ] at h2 ⊢ <;> omega

theorem parse_vec_u64_offset (data : Bytes) (offset : Nat) :
    (parse_vec_u64 data offset).2 =
      if data.length < offset + 4 then offset
      else
        offset + 4 +
          8 * min (leVal ((data.drop offset).take 4))
            ((data.length - (offset + 4)) / 8) := by
  unfold parse_vec_u64 parse_vec parse_u32
  by_cases h : data.length < offset + 4
  · simp [h]
  · simp only [h, if_false]
    exact parseElems_u64_offset data _ (offset + 4)

/-- `parse_vec_string`. -/
def parse_vec_string (data : Bytes) (offset : Nat) :
    Except String (List Bytes) × Nat :=
  parse_vec parse_string data offset

/-- The offset reached after replaying `k` calls of an element primitive
`p`, each call resuming at the previous call's final offset (whether that
call succeeded or not). -/
def elemOffset (p : Bytes → Nat → Except String α × Nat) (data : Bytes) :
    Nat → Nat → Nat
  | offset, 0 => offset
  | offset, k + 1 => elemOffset p data (p data offset).2 k

/-- How many element calls `parseElems` makes: one per fully parsed element
plus, when an element fails, the failing call itself. -/
def parseCalls (p : Bytes → Nat → Except String α × Nat) (data : Bytes) :
    Nat → Nat → Nat
  | 0, _ => 0
  | count + 1, offset =>
    match p data offset with
    | (.error _, _) => 1
    | (.ok _, offset1) => parseCalls p data count offset1 + 1

/-- The element loop's final offset, for an arbitrary element primitive:
exactly the position reached by replaying the element parser's own landing
offsets — past every fully parsed element and, when one fails, wherever
that failing call itself stopped. -/
theorem parseElems_offset (p : Bytes → Nat → Except String α × Nat)
    (data : Bytes) (count offset : Nat) :
    (parseElems p data count offset).2
      = elemOffset p data offset (parseCalls p data count offset) := by
  induction count generalizing offset with
  | zero => rfl
  | succ n ih =>
    unfold parseElems parseCalls
    rcases hp : p data offset with ⟨r, o1⟩
    cases r with
    | error e => simp [elemOffset, hp]
    | ok v =>
      have h2 := ih o1
      rcases hres : parseElems p data n o1 with ⟨r2, o2⟩
      rw [hres] at h2
      cases r2 <;> simp [elemOffset, hp, hres, h2]

/-- `parse_vec`'s final offset for an arbitrary element primitive. -/
theorem parse_vec_offset (p : Bytes → Nat → Except String α × Nat)
    (data : Bytes) (offset : Nat) :
    (parse_vec p data offset).2 =
      if data.length < offset + 4 then offset
      else
        elemOffset p data (offset + 4)
          (parseCalls p data (leVal ((data.drop offset).take 4))
            (offset + 4)) := by
  unfold parse_vec parse_u32
  by_cases h : data.length < offset + 4
  · simp [h]
  · simp only [h, if_false]
    exact parseElems_offset p data _ (offset + 4)

/-- C4 (counterexample to the claim as stated): `parse_string` on the buffer
`[5,0,0,0]` at offset `0` reports an error (the advertised 5-byte string body
is missing), yet the offset has been advanced to `4` — the claim "if the
primitive returns an error ... the offset is left unchanged" is false. -/
theorem c4_counterexample :
    exceptOk (parse_string [5, 0, 0, 0] 0).1 = false ∧
      (parse_string [5, 0, 0, 0] 0).2 = 4 ∧ (4 : Nat) ≠ 0 := by
  refine ⟨rfl, rfl, by decide⟩

/-- C4 (amended): offset discipline of the byte-walker primitives.  Every
primitive advances the offset by exactly the bytes it consumed on success.
On error the fixed-size primitives (u8, u16, u32, u64, i32, bool, pubkey)
leave the offset unchanged, while the composites leave it advanced past the
sub-fields they had already consumed: `parse_string` past the 4-byte length
prefix (unchanged only when the prefix itself is short), `parse_option_u64`
past the 1-byte tag (unchanged only when the tag byte is missing), and
`parse_vec` — for every element primitive — past the count prefix, every
fully parsed element, and whatever the failing element call itself
consumed (captured by `elemOffset`/`parseCalls`; the u64 instantiation has
the closed form below, and for a string element whose length prefix fits
but whose body is missing the offset lands 4 bytes inside the failing
element, as the final concrete conjunct shows). -/
theorem c4_offset_discipline (data : Bytes) (offset : Nat) :
    ((parse_u8 data offset).2 =
      if exceptOk (parse_u8 data offset).1 then offset + 1 else offset)
    ∧ ((parse_u16 data offset).2 =
      if exceptOk (parse_u16 data offset).1 then offset + 2 else offset)
    ∧ ((parse_u32 data offset).2 =
      if exceptOk (parse_u32 data offset).1 then offset + 4 else offset)
    ∧ ((parse_u64 data offset).2 =
      if exceptOk (parse_u64 data offset).1 then offset + 8 else offset)
    ∧ ((parse_i32 data offset).2 =
      if exceptOk (parse_i32 data offset).1 then offset + 4 else offset)
    ∧ ((parse_bool data offset).2 =
      if exceptOk (parse_bool data offset).1 then offset + 1 else offset)
    ∧ ((parse_pubkey data offset).2 =
      if exceptOk (parse_pubkey data offset).1 then offset + 32 else offset)
    ∧ ((parse_string data offset).2 =
      if exceptOk (parse_string data offset).1 then
        offset + 4 + leVal ((data.drop offset).take 4)
      else if data.length < offset + 4 then offset else offset + 4)
    ∧ ((parse_option_u64 data offset).2 =
      if exceptOk (parse_option_u64 data offset).1 then
        (if data.getD offset 0 = 1 then offset + 9 else offset + 1)
      else if data.length < offset + 1 then offset else offset + 1)
    ∧ (∀ (α : Type) (p : Bytes → Nat → Except String α × Nat),
      (parse_vec p data offset).2 =
        if data.length < offset + 4 then offset
        else
          elemOffset p data (offset + 4)
            (parseCalls p data (leVal ((data.drop offset).take 4))
              (offset + 4)))
    ∧ ((parse_vec_u64 data offset).2 =
      if data.length < offset + 4 then offset
      else
        offset + 4 +
          8 * min (leVal ((data.drop offset).take 4))
            ((data.length - (offset + 4)) / 8))
    ∧ ((parse_vec_string [1, 0, 0, 0, 9, 0, 0, 0] 0).2 = 8
      ∧ exceptOk (parse_vec_string [1, 0, 0, 0, 9, 0, 0, 0] 0).1 = false) :=
  ⟨parse_u8_offset data offset, parse_u16_offset data offset,
    parse_u32_offset data offset, parse_u64_offset data offset,
    parse_i32_offset data offset, parse_bool_offset data offset,
    parse_pubkey_offset data offset, parse_string_offset data offset,
    parse_option_u64_offset data offset,
    fun _ p => parse_vec_offset p data offset,
    parse_vec_u64_offset data offset, rfl, rfl⟩

/-! ## Signer / writable role derivation
(`deserialize_versioned_transaction_with_resolved_keys`,
`src/shreds_processing.rs` lines 527-545)

The Rust builds `is_signer`/`is_writable` as all-`false` vectors of length
`num_accounts` and then runs three loops:
  * `for i in 0..S            { if i < N { is_signer[i]  = true } }`
  * `for i in 0..(S - Rs)     { if i < N { is_writable[i] = true } }`
  * `for i in (S + Ru)..N     {            is_writable[i] = true  }`
with `S = num_required_signatures`, `Rs = num_readonly_signed_accounts`,
`Ru = num_readonly_unsigned_accounts` (u8 header fields; `S - Rs` and
`S + Ru` are computed in u8, well defined when `Rs ≤ S` and `S + Ru ≤ 255`,
which the `Nat` embedding assumes).  Element `i` of the result is therefore
as below. -/

/-- The `is_signer` vector: position `i < N` is a signer iff `i < S`. -/
def derive_is_signer (S N : Nat) : List Bool :=
  (List.range N).map fun i => decide (i < S)

/-- The `is_writable` vector the code builds: position `i < N` is writable
iff `i < S - Rs` (loop 2) or `S + Ru ≤ i` (loop 3). -/
def derive_is_writable (S Rs Ru N : Nat) : List Bool :=
  (List.range N).map fun i =>
    decide (i < S - Rs) || decide (S + Ru ≤ i)

/-- Modelled from the spec words (the claim's writable rule): writable
positions are exactly `[0, S−Rs) ∪ [S, N−Ru)`. -/
def claimed_is_writable (S Rs Ru N : Nat) : List Bool :=
  (List.range N).map fun i =>
    decide (i < S - Rs) || (decide (S ≤ i) && decide (i < N - Ru))

/-- C1 (code bug): at header `(S, Rs, Ru) = (1, 0, 1)` with `N = 3` resolved
keys, the signer part is as claimed (exactly the first `S` positions), but
the code marks positions `{0, 2}` writable — loop 3 starts at `S + Ru`,
skipping the *first* `Ru` non-signers — whereas the claim's rule
`[0, S−Rs) ∪ [S, N−Ru)` (the Solana role-derivation convention, excluding
the *last* `Ru` non-signers) gives `{0, 1}`. -/
theorem c1_writable_divergence :
    derive_is_signer 1 3 = [true, false, false]
    ∧ derive_is_writable 1 0 1 3 = [true, false, true]
    ∧ claimed_is_writable 1 0 1 3 = [true, true, false]
    ∧ derive_is_writable 1 0 1 3 ≠ claimed_is_writable 1 0 1 3 := by
  refine ⟨by decide, by decide, by decide, by decide⟩

/-! ## `create_standardized_instruction` (`src/utils.rs` lines 122-167)

Only the account-mapping part carries logic; the rest of the function is
JSON assembly.  A `Pubkey` is modelled as a `Nat`; in the `pubkey` field,
`none` models the literal string `"unknown"` and `some k` models the
base58 rendering of key `k`. -/

/-- One element of the emitted `accounts` array. -/
structure AccountMeta where
  index : Nat
  pubkey : Option Nat
  signer : Bool
  writable : Bool
deriving Repr, DecidableEq

/-- The record built for position `i` (the `.enumerate()` counter) holding
account index `idx`: all slice accesses are bounds-guarded, defaulting the
pubkey to `"unknown"` and the flags to `false`. -/
def stdAccount (i idx : Nat) (accountKeys : List Nat)
    (isSigner isWritable : List Bool) : AccountMeta :=
  if idx < accountKeys.length then
    { index := i, pubkey := some (accountKeys.getD idx 0),
      signer := isSigner.getD idx false,
      writable := isWritable.getD idx false }
  else
    { index := i, pubkey := none, signer := false, writable := false }

/-- The `mapped_accounts` loop of `create_standardized_instruction`:
`accounts_indices.iter().enumerate().map(...)` with counter starting at `i`. -/
def mappedAccountsFrom (i : Nat) (accountsIndices : List Nat)
    (accountKeys : List Nat) (isSigner isWritable : List Bool) :
    List AccountMeta :=
  match accountsIndices with
  | [] => []
  | idx :: rest =>
    stdAccount i idx accountKeys isSigner isWritable ::
      mappedAccountsFrom (i + 1) rest accountKeys isSigner isWritable

/-- The `accounts` array of `create_standardized_instruction`. -/
def create_standardized_accounts (accountsIndices : List Nat)
    (accountKeys : List Nat) (isSigner isWritable : List Bool) :
    List AccountMeta :=
  mappedAccountsFrom 0 accountsIndices accountKeys isSigner isWritable

theorem mappedAccountsFrom_length (i : Nat) (accountsIndices : List Nat)
    (accountKeys : List Nat) (isSigner isWritable : List Bool) :
    (mappedAccountsFrom i accountsIndices accountKeys isSigner isWritable).length
      = accountsIndices.length := by
  induction accountsIndices generalizing i with
  | nil => rfl
  | cons idx rest ih => simp [mappedAccountsFrom, ih]

theorem mappedAccountsFrom_getElem (i : Nat) (accountsIndices : List Nat)
    (accountKeys : List Nat) (isSigner isWritable : List Bool) (j : Nat) :
    (mappedAccountsFrom i accountsIndices accountKeys isSigner isWritable)[j]?
      = (accountsIndices[j]?).map
          (fun idx => stdAccount (i + j) idx accountKeys isSigner isWritable) := by
  induction accountsIndices generalizing i j with
  | nil => simp [mappedAccountsFrom]
  | cons idx rest ih =>
    cases j with
    | zero => simp [mappedAccountsFrom]
    | succ j =>
      have h := ih (i + 1) j
      simp only [mappedAccountsFrom, List.getElem?_cons_succ, h]
      have harith : i + 1 + j = i + (j + 1) := by omega
      rw [harith]

/-- C9: `create_standardized_instruction` is total and emits one record per
account index, in order, with position counter `i`: an out-of-range index
produces `pubkey = "unknown"`, `signer = false`, `writable = false`; an
in-range index produces the keyed record whose flags default to `false`
when the index is beyond the `is_signer` / `is_writable` slice lengths. -/
theorem c9_standardized_instruction_accounts (accountsIndices : List Nat)
    (accountKeys : List Nat) (isSigner isWritable : List Bool) :
    (create_standardized_accounts accountsIndices accountKeys isSigner
        isWritable).length = accountsIndices.length
    ∧ ∀ i idx, accountsIndices[i]? = some idx →
        (create_standardized_accounts accountsIndices accountKeys isSigner
            isWritable)[i]?
          = some (stdAccount i idx accountKeys isSigner isWritable)
        ∧ (accountKeys.length ≤ idx →
            stdAccount i idx accountKeys isSigner isWritable
              = ⟨i, none, false, false⟩)
        ∧ (idx < accountKeys.length →
            stdAccount i idx accountKeys isSigner isWritable
              = ⟨i, some (accountKeys.getD idx 0), isSigner.getD idx false,
                  isWritable.getD idx false⟩)
        ∧ (isSigner.length ≤ idx →
            (stdAccount i idx accountKeys isSigner isWritable).signer = false)
        ∧ (isWritable.length ≤ idx →
            (stdAccount i idx accountKeys isSigner isWritable).writable
              = false) := by
  refine ⟨mappedAccountsFrom_length 0 accountsIndices accountKeys isSigner
    isWritable, ?_⟩
  intro i idx hidx
  refine ⟨?_, ?_, ?_, ?_, ?_⟩
  · have h := mappedAccountsFrom_getElem 0 accountsIndices accountKeys
      isSigner isWritable i
    rw [create_standardized_accounts, h, hidx]
    simp
  · intro hoob
    rw [stdAccount, if_neg (by omega)]
  · intro hin
    rw [stdAccount, if_pos hin]
  · intro hs
    by_cases hin : idx < accountKeys.length
    · rw [stdAccount, if_pos hin]
      simp [List.getElem?_eq_none, hs]
    · rw [stdAccount, if_neg hin]
  · intro hw
    by_cases hin : idx < accountKeys.length
    · rw [stdAccount, if_pos hin]
      simp [List.getElem?_eq_none, hw]
    · rw [stdAccount, if_neg hin]

/-- C9 witness: a concrete run — index 0 in range (with signer flag present
and writable flag out of slice range), index 7 out of range. -/
theorem c9_standardized_instruction_accounts_witness :
    ([0, 7] : List Nat)[1]? = some 7
    ∧ (create_standardized_accounts [0, 7] [41, 42] [true] [])[1]?
        = some ⟨1, none, false, false⟩
    ∧ (create_standardized_accounts [0, 7] [41, 42] [true] [])[0]?
        = some ⟨0, some 41, true, false⟩ := by
  have h := c9_standardized_instruction_accounts [0, 7] [41, 42] [true] []
  have h7 := h.2 1 7 (by decide)
  have h0 := h.2 0 0 (by decide)
  refine ⟨by decide, ?_, ?_⟩
  · rw [h7.1, h7.2.1 (by decide)]
  · rw [h0.1, h0.2.2.1 (by decide)]
    decide

/-! ## Address lookup table cache (`src/address_lookup_table_cache.rs`)

`Pubkey`s are modelled as `Nat` (with `0` for `Pubkey::default()`, the
placeholder), `Instant` as `Nat` seconds, and the RPC fetch
`fetch_lookup_table_from_rpc` as an `Except Unit (List Nat)` oracle value. -/

/-- `LookupTableCacheEntry`. -/
structure LookupTableCacheEntry where
  addresses : List Nat
  last_updated : Nat
  is_valid : Bool
deriving Repr, DecidableEq

/-- The `DashMap<Pubkey, LookupTableCacheEntry>` cache as a keyed map. -/
def AltCache := Nat → Option LookupTableCacheEntry

/-- `DashMap::insert`. -/
def AltCache.insert (c : AltCache) (k : Nat) (e : LookupTableCacheEntry) :
    AltCache :=
  fun q => if q = k then some e else c q

/-- The post-miss half of `get_lookup_table_addresses` (lines 57-92): fetch
from RPC; on success insert a valid entry; on failure fall back to a stale
valid entry if one exists, else insert an invalid empty entry and surface
the error. -/
def altFetchPath (now : Nat) (fetch : Except Unit (List Nat))
    (cache : AltCache) (key : Nat) : Except Unit (List Nat) × AltCache :=
  match fetch with
  | .ok addresses => (.ok addresses, cache.insert key ⟨addresses, now, true⟩)
  | .error e =>
    match cache key with
    | some entry =>
      if entry.is_valid then (.ok entry.addresses, cache)
      else (.error e, cache.insert key ⟨[], now, false⟩)
    | none => (.error e, cache.insert key ⟨[], now, false⟩)

/-- `get_lookup_table_addresses`: cache hit requires a valid entry within
TTL (`entry.last_updated.elapsed() < cache_ttl`); otherwise the fetch path
runs.  Returns the result and the updated cache. -/
def get_lookup_table_addresses (now ttl : Nat)
    (fetch : Except Unit (List Nat)) (cache : AltCache) (key : Nat) :
    Except Unit (List Nat) × AltCache :=
  match cache key with
  | some entry =>
    if entry.is_valid && decide (now - entry.last_updated < ttl) then
      (.ok entry.addresses, cache)
    else altFetchPath now fetch cache key
  | none => altFetchPath now fetch cache key

/-- C6: on a cache miss or an expired/invalid entry, `get_lookup_table_addresses`
takes the fetch path: fetch success inserts a valid entry holding the fetched
addresses and returns them; fetch failure with a stale valid entry returns that
entry's addresses and leaves the cache untouched; fetch failure without any
valid entry inserts an invalid entry with an empty address list and returns the
error. -/
theorem c6_miss_fetch_semantics (now ttl : Nat)
    (fetch : Except Unit (List Nat)) (cache : AltCache) (key : Nat)
    (hmiss : ∀ e, cache key = some e → e.is_valid = true →
      ttl ≤ now - e.last_updated) :
    (∀ addrs, fetch = .ok addrs →
        get_lookup_table_addresses now ttl fetch cache key
          = (.ok addrs, cache.insert key ⟨addrs, now, true⟩))
    ∧ (∀ err entry, fetch = .error err → cache key = some entry →
        entry.is_valid = true →
        get_lookup_table_addresses now ttl fetch cache key
          = (.ok entry.addresses, cache))
    ∧ (∀ err, fetch = .error err →
        (∀ entry, cache key = some entry → entry.is_valid = false) →
        get_lookup_table_addresses now ttl fetch cache key
          = (.error err, cache.insert key ⟨[], now, false⟩)) := by
  have hpath : get_lookup_table_addresses now ttl fetch cache key
      = altFetchPath now fetch cache key := by
    unfold get_lookup_table_addresses
    cases hc : cache key with
    | none => rfl
    | some entry =>
      have hcond : (entry.is_valid && decide (now - entry.last_updated < ttl))
          = false := by
        cases hv : entry.is_valid with
        | false => simp
        | true =>
          have hle := hmiss entry hc hv
          simp only [Bool.true_and, decide_eq_false_iff_not]
          omega
      simp [hcond]
  refine ⟨?_, ?_, ?_⟩
  · intro addrs hf
    rw [hpath, hf]
    rfl
  · intro err entry hf hc hv
    rw [hpath, hf]
    unfold altFetchPath
    rw [hc]
    simp [hv]
  · intro err hf hnv
    rw [hpath, hf]
    unfold altFetchPath
    cases hc : cache key with
    | none => rfl
    | some entry =>
      have := hnv entry hc
      simp [this]

/-- A concrete cache for the C6 witness: key 3 holds a stale valid entry. -/
def exAltCache : AltCache :=
  fun q => if q = 3 then some ⟨[9, 10], 0, true⟩ else none

/-- C6 witness: at `now = 400`, `ttl = 300` the entry for key 3 is expired;
with a failing fetch, the stale addresses `[9, 10]` are returned and the
cache is kept; with a succeeding fetch, the fetched addresses are returned
and a fresh valid entry is inserted. -/
theorem c6_miss_fetch_semantics_witness :
    get_lookup_table_addresses 400 300 (.error ()) exAltCache 3
      = (.ok [9, 10], exAltCache)
    ∧ get_lookup_table_addresses 400 300 (.ok [7]) exAltCache 3
      = (.ok [7], exAltCache.insert 3 ⟨[7], 400, true⟩) := by
  have hmiss : ∀ e, exAltCache 3 = some e → e.is_valid = true →
      (300 : Nat) ≤ 400 - e.last_updated := by
    intro e he _
    have he2 : e = ⟨[9, 10], 0, true⟩ := by
      simpa [exAltCache] using he.symm
    rw [he2]
    decide
  constructor
  · exact (c6_miss_fetch_semantics 400 300 (.error ()) exAltCache 3 hmiss).2.1
      () ⟨[9, 10], 0, true⟩ rfl (by simp [exAltCache]) rfl
  · exact (c6_miss_fetch_semantics 400 300 (.ok [7]) exAltCache 3 hmiss).1
      [7] rfl

/-! ## `resolve_address_lookups` (lines 137-227)

Each `for lookup in lookups` iteration calls the (stateful, possibly
refreshing) cache; the outcomes of `get_lookup_table_addresses` and
`force_refresh_lookup_table` for iteration `i` are abstracted as oracles
`get i` / `refresh i`, so the theorems quantify over every possible cache
behaviour. -/

/-- `MessageAddressTableLookup`. -/
structure MsgAddressTableLookup where
  account_key : Nat
  writable_indexes : List Nat
  readonly_indexes : List Nat
deriving Repr, Inhabited

/-- Number of keys one lookup contributes to the resolved list. -/
def MsgAddressTableLookup.slots (lk : MsgAddressTableLookup) : Nat :=
  lk.readonly_indexes.length + lk.writable_indexes.length

/-- The body of one `for lookup in lookups` iteration: on a successful
table lookup, check the chained readonly/writable indexes for out-of-bounds
(forcing one refresh, keeping the old list if the refresh fails), then push
one address — or the `Pubkey::default()` placeholder `0` if still out of
bounds — per readonly index, then per writable index; on a failed table
lookup, push `slots` placeholders. -/
def resolveChunk (get refresh : Except Unit (List Nat))
    (lk : MsgAddressTableLookup) : List Nat :=
  match get with
  | .ok addrs0 =>
    let needs_refresh :=
      (lk.readonly_indexes ++ lk.writable_indexes).any
        fun idx => decide (addrs0.length ≤ idx)
    let addrs :=
      if needs_refresh then
        match refresh with
        | .ok refreshed => refreshed
        | .error _ => addrs0
      else addrs0
    (lk.readonly_indexes.map fun idx => (addrs[idx]?).getD 0)
      ++ (lk.writable_indexes.map fun idx => (addrs[idx]?).getD 0)
  | .error _ => List.replicate lk.slots 0

/-- The loop of `resolve_address_lookups`, iteration counter `i` indexing
the oracles. -/
def resolveLoop (get refresh : Nat → Except Unit (List Nat)) :
    Nat → List MsgAddressTableLookup → List Nat
  | _, [] => []
  | i, lk :: rest =>
    resolveChunk (get i) (refresh i) lk ++ resolveLoop get refresh (i + 1) rest

/-- `resolve_address_lookups`: base keys first, then the per-lookup chunks
in order. -/
def resolve_address_lookups (get refresh : Nat → Except Unit (List Nat))
    (base_account_keys : List Nat) (lookups : List MsgAddressTableLookup) :
    List Nat :=
  base_account_keys ++ resolveLoop get refresh 0 lookups

/-- Offset of lookup `j`'s chunk inside the loop output. -/
def chunkOffset (lookups : List MsgAddressTableLookup) (j : Nat) : Nat :=
  ((lookups.take j).map MsgAddressTableLookup.slots).sum

theorem resolveChunk_length (get refresh : Except Unit (List Nat))
    (lk : MsgAddressTableLookup) :
    (resolveChunk get refresh lk).length = lk.slots := by
  cases get <;> simp [resolveChunk, MsgAddressTableLookup.slots]

theorem resolveLoop_length (get refresh : Nat → Except Unit (List Nat))
    (i : Nat) (lookups : List MsgAddressTableLookup) :
    (resolveLoop get refresh i lookups).length =
      (lookups.map MsgAddressTableLookup.slots).sum := by
  induction lookups generalizing i with
  | nil => rfl
  | cons lk rest ih =>
    simp [resolveLoop, resolveChunk_length, ih]

theorem resolveLoop_segment (get refresh : Nat → Except Unit (List Nat))
    (i : Nat) (lookups : List MsgAddressTableLookup) (j : Nat)
    (hj : j < lookups.length) :
    ((resolveLoop get refresh i lookups).drop (chunkOffset lookups j)).take
        (lookups.getD j default).slots
      = resolveChunk (get (i + j)) (refresh (i + j)) (lookups.getD j default) := by
  induction lookups generalizing i j with
  | nil => cases hj
  | cons lk rest ih =>
    cases j with
    | zero =>
      simp only [chunkOffset, List.take_zero, List.map_nil, List.sum_nil,
        List.drop_zero, resolveLoop, List.getD_cons_zero, Nat.add_zero]
      exact List.take_left' (resolveChunk_length (get i) (refresh i) lk)
    | succ j =>
      have hj' : j < rest.length := by simpa using hj
      have hoff : chunkOffset (lk :: rest) (j + 1)
          = lk.slots + chunkOffset rest j := by
        simp [chunkOffset]
      rw [hoff]
      simp only [resolveLoop, List.getD_cons_succ]
      rw [← List.drop_drop,
        List.drop_left' (resolveChunk_length (get i) (refresh i) lk),
        ih (i + 1) j hj']
      have harith : i + 1 + j = i + (j + 1) := by omega
      rw [harith]

/-- C5: `resolve_address_lookups` returns the base keys followed, for each
lookup in order, by that lookup's chunk — its readonly-indexed addresses in
order then its writable-indexed addresses in order (placeholders for
out-of-bounds indexes) — and a failed table resolution contributes exactly
`readonly_indexes.len() + writable_indexes.len()` placeholder addresses in
place of its chunk while every other chunk is unaffected; the result always
has length `|base_keys| + Σ slots`. -/
theorem c5_resolve_shape (get refresh : Nat → Except Unit (List Nat))
    (base_account_keys : List Nat) (lookups : List MsgAddressTableLookup) :
    (resolve_address_lookups get refresh base_account_keys lookups).length
      = base_account_keys.length
        + (lookups.map MsgAddressTableLookup.slots).sum
    ∧ (resolve_address_lookups get refresh base_account_keys lookups).take
        base_account_keys.length = base_account_keys
    ∧ (∀ j, j < lookups.length →
        ((resolve_address_lookups get refresh base_account_keys
              lookups).drop
            (base_account_keys.length + chunkOffset lookups j)).take
            (lookups.getD j default).slots
          = resolveChunk (get j) (refresh j) (lookups.getD j default))
    ∧ (∀ j, j < lookups.length → get j = .error () →
        resolveChunk (get j) (refresh j) (lookups.getD j default)
          = List.replicate (lookups.getD j default).slots 0) := by
  refine ⟨?_, ?_, ?_, ?_⟩
  · simp [resolve_address_lookups, resolveLoop_length]
  · exact List.take_left' rfl
  · intro j hj
    unfold resolve_address_lookups
    rw [← List.drop_drop, List.drop_left' rfl]
    have h := resolveLoop_segment get refresh 0 lookups j hj
    simpa using h
  · intro j hj herr
    rw [herr]
    rfl

/-- First oracle for the C5 witness: lookup 0 resolves to a 2-entry table,
lookup 1 fails. -/
def exAltGet : Nat → Except Unit (List Nat) :=
  fun i => if i = 0 then .ok [100, 101] else .error ()

/-- Refresh oracle for the C5 witness: always fails. -/
def exAltRefresh : Nat → Except Unit (List Nat) := fun _ => .error ()

/-- Lookups for the C5 witness: lookup 0 = (writable [0], readonly [1]),
lookup 1 = (writable [2,3], readonly [4]). -/
def exLookups : List MsgAddressTableLookup := [⟨50, [0], [1]⟩, ⟨51, [2, 3], [4]⟩]

/-- C5 witness: with base key `[7]`, lookup 1's chunk is three placeholders
(its resolution failed) and the total length is `1 + 2 + 3 = 6`. -/
theorem c5_resolve_shape_witness :
    ((resolve_address_lookups exAltGet exAltRefresh [7] exLookups).drop
        (1 + chunkOffset exLookups 1)).take (exLookups.getD 1 default).slots
      = List.replicate (exLookups.getD 1 default).slots 0
    ∧ (resolve_address_lookups exAltGet exAltRefresh [7] exLookups).length
        = 6 := by
  have h := c5_resolve_shape exAltGet exAltRefresh [7] exLookups
  constructor
  · exact (h.2.2.1 1 (by decide)).trans (h.2.2.2 1 (by decide) rfl)
  · rw [h.1]; rfl

/-! ## FEC-block assembly (`src/shreds_processing.rs`)

Slots, fec-set indexes and shred indexes are `Nat`; the shred maps are
association lists (the code only ever inserts at an absent key, so keys
stay unique); `Instant` is a `Nat` second count `now`. -/

/-- `ShredType`. -/
inductive ShredKind
  | Code
  | Data
deriving Repr, DecidableEq

/-- The fields of a `Shred` that FEC assembly reads.  `coding_header` is
the outcome of `get_coding_shred_header` on the shred's payload —
`some (num_data_shreds, num_coding_shreds)` on success, `none` on a parse
failure; it is only consulted for Coding shreds. -/
structure ShredM where
  slot : Nat
  fec_set_index : Nat
  index : Nat
  shred_type : ShredKind
  last_in_slot : Bool
  data_complete : Bool
  coding_header : Option (Nat × Nat)
deriving Repr, DecidableEq

/-- `FecBlock`. -/
structure FecBlock where
  num_data_shreds : Option Nat
  num_coding_shreds : Option Nat
  data_shreds_collected : Nat
  coding_shreds_collected : Nat
  data_shreds : List (Nat × ShredM)
  coding_shreds : List (Nat × ShredM)
  fec_set_index : Nat
  slot : Nat
  collection_start : Option Nat
  last_shred_in_slot : Bool
deriving Repr, DecidableEq

/-- `FecBlock::new`. -/
def FecBlock.new (slot fec_set_index : Nat) : FecBlock where
  num_data_shreds := none
  num_coding_shreds := none
  data_shreds_collected := 0
  coding_shreds_collected := 0
  data_shreds := []
  coding_shreds := []
  fec_set_index := fec_set_index
  slot := slot
  collection_start := none
  last_shred_in_slot := false

/-- The completion predicate of `FecBlock::is_complete` (the Rust method
also inserts the key into the processed set when it returns `true`; that
side effect is modelled in `add_shred` below). -/
def FecBlock.is_complete (b : FecBlock) : Bool :=
  match b.num_data_shreds, b.num_coding_shreds with
  | some expected_data, some expected_coding =>
    let data_count := b.data_shreds.length
    let coding_count := b.coding_shreds.length
    let total_shreds := data_count + coding_count
    let total_expected := expected_data + expected_coding
    (data_count == expected_data) || decide (total_shreds ≥ total_expected)
  | _, _ => false

/-- C7: `is_complete` returns `true` iff both expected counts are known and
either the collected data-shred count equals the expected data count or the
total collected count is at least the total expected count; with an unknown
expected count it returns `false`. -/
theorem c7_is_complete_iff (b : FecBlock) :
    b.is_complete = true ↔
      ∃ expected_data expected_coding,
        b.num_data_shreds = some expected_data
        ∧ b.num_coding_shreds = some expected_coding
        ∧ (b.data_shreds.length = expected_data
            ∨ b.data_shreds.length + b.coding_shreds.length
                ≥ expected_data + expected_coding) := by
  cases hd : b.num_data_shreds <;> cases hc : b.num_coding_shreds <;>
    simp [FecBlock.is_complete, hd, hc]

/-- The `DashMap<(u64, u32), FecBlock>` as a keyed map. -/
def FecMap := Nat × Nat → Option FecBlock

/-- `DashMap::insert` (also the effect of `entry(..).or_insert_with(..)`). -/
def FecMap.insert (m : FecMap) (k : Nat × Nat) (b : FecBlock) : FecMap :=
  fun q => if q = k then some b else m q

/-- `DashMap::remove`. -/
def FecMap.remove (m : FecMap) (k : Nat × Nat) : FecMap :=
  fun q => if q = k then none else m q

/-- The `DashSet<(u64, u32)>` of processed blocks. -/
def ProcessedSet := Nat × Nat → Bool

/-- `DashSet::insert`. -/
def ProcessedSet.insert (s : ProcessedSet) (k : Nat × Nat) : ProcessedSet :=
  fun q => decide (q = k) || s q

/-- `FecBlockError` (the only constructor `add_shred` can produce). -/
inductive FecBlockError
  | SlotMismatch (expected found : Nat)
deriving Repr, DecidableEq

/-- The observable outcome of one `add_shred` call: its `Result`, the two
shared containers, and whether a decode was scheduled (`should_decode`). -/
structure AddShredOutcome where
  res : Except FecBlockError Unit
  fec_blocks : FecMap
  processed_blocks : ProcessedSet
  should_decode : Bool

/-- The `match shred_type` block of `add_shred` (lines 210-247): `none`
models the early `return Ok(())` on a duplicate (kind, shred-index)
position; otherwise the updated block.  For a Coding shred with unknown
expected counts, a successfully parsed coding header populates them. -/
def add_shred_insert (shred : ShredM) (fec_block : FecBlock) :
    Option FecBlock :=
  match shred.shred_type with
  | .Code =>
    if (fec_block.coding_shreds.lookup shred.index).isSome then none
    else
      let b1 :=
        if fec_block.num_data_shreds.isNone
            || fec_block.num_coding_shreds.isNone then
          match shred.coding_header with
          | some (num_data_shreds, num_coding_shreds) =>
            { fec_block with
                num_data_shreds := some num_data_shreds,
                num_coding_shreds := some num_coding_shreds }
          | none => fec_block
        else fec_block
      some { b1 with
              coding_shreds := (shred.index, shred) :: b1.coding_shreds,
              coding_shreds_collected := b1.coding_shreds_collected + 1 }
  | .Data =>
    if (fec_block.data_shreds.lookup shred.index).isSome then none
    else
      let b1 :=
        if shred.last_in_slot && shred.data_complete then
          { fec_block with last_shred_in_slot := true }
        else fec_block
      some { b1 with
              data_shreds := (shred.index, shred) :: b1.data_shreds,
              data_shreds_collected := b1.data_shreds_collected + 1 }

/-- The tail of `add_shred` after a successful insertion (lines 252-338):
set `collection_start` if unset, write the block back, run the inline
30-second garbage collection, check completeness (inserting the key into
the processed set when complete) and report `should_decode`. -/
def add_shred_finish (now : Nat) (key : Nat × Nat) (m0 : FecMap)
    (processed_blocks : ProcessedSet) (b2 : FecBlock) : AddShredOutcome :=
  let b3 :=
    if b2.collection_start.isNone then
      { b2 with collection_start := some now }
    else b2
  let m1 := m0.insert key b3
  let m2 :=
    if (match b3.collection_start with
        | some start => decide (now - start > 30)
        | none => false) then
      m1.remove key
    else m1
  let complete := b3.is_complete
  { res := .ok (),
    fec_blocks := m2,
    processed_blocks :=
      if complete then processed_blocks.insert key else processed_blocks,
    should_decode := complete }

/-- `add_shred`: look up or create the `FecBlock` for
`(shred_slot, fec_set_index)` (the `entry(..).or_insert_with(..)` writes the
fresh block into the map), require the slot to match, dispatch on the shred
kind, and finish. -/
def add_shred (now : Nat) (fec_blocks : FecMap)
    (processed_blocks : ProcessedSet) (shred : ShredM) : AddShredOutcome :=
  let key := (shred.slot, shred.fec_set_index)
  let fec_block0 :=
    (fec_blocks key).getD (FecBlock.new shred.slot shred.fec_set_index)
  let m0 := fec_blocks.insert key fec_block0
  if shred.slot = fec_block0.slot then
    match add_shred_insert shred fec_block0 with
    | none =>
      { res := .ok (), fec_blocks := m0,
        processed_blocks := processed_blocks, should_decode := false }
    | some b2 => add_shred_finish now key m0 processed_blocks b2
  else
    { res := .error (.SlotMismatch fec_block0.slot shred.slot),
      fec_blocks := m0, processed_blocks := processed_blocks,
      should_decode := false }

/-- C8: a shred whose (kind, shred-index) position is already occupied in
its block makes `add_shred` a silent no-op returning `Ok`: the stored shred
is not overwritten, both shred maps, both collected counters, the block map,
the processed set stay unchanged and no decode is scheduled. -/
theorem c8_duplicate_noop (now : Nat) (fec_blocks : FecMap)
    (processed_blocks : ProcessedSet) (shred : ShredM) (b : FecBlock)
    (hb : fec_blocks (shred.slot, shred.fec_set_index) = some b)
    (hslot : b.slot = shred.slot)
    (hdup : (match shred.shred_type with
        | ShredKind.Code => (b.coding_shreds.lookup shred.index).isSome
        | ShredKind.Data => (b.data_shreds.lookup shred.index).isSome)
      = true) :
    add_shred now fec_blocks processed_blocks shred
      = ⟨.ok (), fec_blocks, processed_blocks, false⟩ := by
  have hm0 : FecMap.insert fec_blocks (shred.slot, shred.fec_set_index) b
      = fec_blocks := by
    funext q
    simp only [FecMap.insert]
    by_cases hq : q = (shred.slot, shred.fec_set_index)
    · rw [if_pos hq, hq, hb]
    · rw [if_neg hq]
  have hins : add_shred_insert shred b = none := by
    unfold add_shred_insert
    cases ht : shred.shred_type <;> rw [ht] at hdup <;> dsimp only at hdup <;>
      simp [hdup]
  simp only [add_shred, hb, Option.getD_some]
  rw [if_pos hslot.symm, hins, hm0]

/-- The map invariant behind C10: every stored block sits under the key made
of its own slot and fec-set index (blocks are only created by
`FecBlock::new` from the key's components). -/
def FecInv (m : FecMap) : Prop :=
  ∀ s f b, m (s, f) = some b → b.slot = s ∧ b.fec_set_index = f

theorem fecInv_insert {m : FecMap} (hinv : FecInv m) {k : Nat × Nat}
    {b : FecBlock} (hb : b.slot = k.1) (hf : b.fec_set_index = k.2) :
    FecInv (m.insert k b) := by
  intro s f b' hb'
  simp only [FecMap.insert] at hb'
  by_cases hq : ((s, f) : Nat × Nat) = k
  · rw [if_pos hq] at hb'
    injection hb' with hbb
    subst hbb
    exact ⟨by rw [hb, ← hq], by rw [hf, ← hq]⟩
  · rw [if_neg hq] at hb'
    exact hinv s f b' hb'

theorem fecInv_remove {m : FecMap} (hinv : FecInv m) (k : Nat × Nat) :
    FecInv (m.remove k) := by
  intro s f b hb
  simp only [FecMap.remove] at hb
  by_cases hq : ((s, f) : Nat × Nat) = k
  · rw [if_pos hq] at hb
    cases hb
  · rw [if_neg hq] at hb
    exact hinv s f b hb

theorem add_shred_insert_fields (shred : ShredM) (b b2 : FecBlock)
    (h : add_shred_insert shred b = some b2) :
    b2.slot = b.slot ∧ b2.fec_set_index = b.fec_set_index := by
  unfold add_shred_insert at h
  cases ht : shred.shred_type <;> rw [ht] at h <;> dsimp only at h
  · by_cases hdup : (b.coding_shreds.lookup shred.index).isSome = true
    · rw [if_pos hdup] at h
      cases h
    · rw [if_neg hdup] at h
      by_cases hn : (b.num_data_shreds.isNone || b.num_coding_shreds.isNone)
          = true
      · rw [if_pos hn] at h
        rcases hch : shred.coding_header with _ | ⟨nd, nc⟩ <;> rw [hch] at h <;>
          (injection h with h2; subst h2; exact ⟨rfl, rfl⟩)
      · rw [if_neg hn] at h
        injection h with h2
        subst h2
        exact ⟨rfl, rfl⟩
  · by_cases hdup : (b.data_shreds.lookup shred.index).isSome = true
    · rw [if_pos hdup] at h
      cases h
    · rw [if_neg hdup] at h
      by_cases hl : (shred.last_in_slot && shred.data_complete) = true
      · rw [if_pos hl] at h
        injection h with h2
        subst h2
        exact ⟨rfl, rfl⟩
      · rw [if_neg hl] at h
        injection h with h2
        subst h2
        exact ⟨rfl, rfl⟩

theorem add_shred_finish_fields (now : Nat) (key : Nat × Nat) (m0 : FecMap)
    (processed_blocks : ProcessedSet) (b2 : FecBlock) (hm0 : FecInv m0)
    (hb : b2.slot = key.1) (hf : b2.fec_set_index = key.2) :
    (add_shred_finish now key m0 processed_blocks b2).res = .ok ()
    ∧ FecInv (add_shred_finish now key m0 processed_blocks b2).fec_blocks := by
  constructor
  · rfl
  · simp only [add_shred_finish]
    split <;> split
    · exact fecInv_remove
        (fecInv_insert (b := { b2 with collection_start := some now }) hm0 hb hf)
        key
    · exact fecInv_insert (b := { b2 with collection_start := some now })
        hm0 hb hf
    · exact fecInv_remove (fecInv_insert hm0 hb hf) key
    · exact fecInv_insert hm0 hb hf

/-- C10: under the invariant that every stored block's slot and fec-set
index match its key, `add_shred` never takes the SlotMismatch branch — it
always returns `Ok` — and it preserves the invariant (so starting from the
empty map SlotMismatch is unreachable). -/
theorem c10_no_slot_mismatch (now : Nat) (fec_blocks : FecMap)
    (processed_blocks : ProcessedSet) (shred : ShredM)
    (hinv : FecInv fec_blocks) :
    (add_shred now fec_blocks processed_blocks shred).res = .ok ()
    ∧ FecInv (add_shred now fec_blocks processed_blocks shred).fec_blocks := by
  have hfields :
      ((fec_blocks (shred.slot, shred.fec_set_index)).getD
          (FecBlock.new shred.slot shred.fec_set_index)).slot = shred.slot
      ∧ ((fec_blocks (shred.slot, shred.fec_set_index)).getD
          (FecBlock.new shred.slot shred.fec_set_index)).fec_set_index
          = shred.fec_set_index := by
    rcases hb : fec_blocks (shred.slot, shred.fec_set_index) with _ | b
    · simp [FecBlock.new]
    · have h := hinv _ _ b hb
      simp [h.1, h.2]
  simp only [add_shred]
  rw [if_pos hfields.1.symm]
  rcases hins : add_shred_insert shred
      ((fec_blocks (shred.slot, shred.fec_set_index)).getD
        (FecBlock.new shred.slot shred.fec_set_index)) with _ | b2
  · exact ⟨rfl, fecInv_insert hinv hfields.1 hfields.2⟩
  · have hf2 := add_shred_insert_fields shred _ b2 hins
    exact add_shred_finish_fields now _ _ processed_blocks b2
      (fecInv_insert hinv hfields.1 hfields.2)
      (hf2.1.trans hfields.1) (hf2.2.trans hfields.2)

/-- A concrete Data shred for the C8/C10 witnesses. -/
def exShred : ShredM where
  slot := 5
  fec_set_index := 7
  index := 9
  shred_type := ShredKind.Data
  last_in_slot := false
  data_complete := false
  coding_header := none

/-- A block already holding `exShred` at data position 9. -/
def exFecBlock : FecBlock :=
  { FecBlock.new 5 7 with
      data_shreds := [(9, exShred)]
      data_shreds_collected := 1
      collection_start := some 0 }

/-- A map holding `exFecBlock` under key (5, 7). -/
def exFecMap : FecMap :=
  fun q => if q = (5, 7) then some exFecBlock else none

/-- The empty processed set. -/
def emptyProcessed : ProcessedSet := fun _ => false

/-- C8 witness: re-adding `exShred` to the map that already holds it at
data position 9 returns `Ok` and changes nothing. -/
theorem c8_duplicate_noop_witness :
    add_shred 3 exFecMap emptyProcessed exShred
      = ⟨.ok (), exFecMap, emptyProcessed, false⟩ :=
  c8_duplicate_noop 3 exFecMap emptyProcessed exShred exFecBlock
    rfl rfl (by decide)

/-- The empty FEC-block map. -/
def emptyFecMap : FecMap := fun _ => none

/-- C10 witness: adding `exShred` to the empty map (which trivially
satisfies the invariant) returns `Ok`, not SlotMismatch. -/
theorem c10_no_slot_mismatch_witness :
    (add_shred 0 emptyFecMap emptyProcessed exShred).res = .ok () :=
  (c10_no_slot_mismatch 0 emptyFecMap emptyProcessed exShred
    (by intro s f b hb; simp [emptyFecMap] at hb)).1

/-! ## The periodic sweeper task (`src/main.rs` lines 187-214)

Every 10 seconds the task captures `now` and runs two `retain` passes. -/

/-- The FEC-block pass (lines 196-198): keep a block iff
`now.duration_since(collection_start) < 20 s`.  The Rust unwraps
`collection_start` with `expect` (panicking if it were `None`); the model
reads the contained value, and the theorems hypothesise `some`. -/
def fec_blocks_sweep (now : Nat)
    (blocks : List ((Nat × Nat) × FecBlock)) :
    List ((Nat × Nat) × FecBlock) :=
  blocks.filter fun kv => decide (now - (kv.2.collection_start.getD 0) < 20)

/-- The processed-set pass (lines 200-203): the closure destructures the
`(slot, fec_set_index)` element as `(_, timestamp)` and keeps it iff
`fec_set_index > block_time.elapsed().as_secs()`, where `block_time` is
`Instant::now() - 20 s`, so the compared value is `20` seconds (plus any
sub-second scheduling drift, truncated by `as_secs`), passed here as
`elapsed_secs`.  No insertion time is stored in the set at all. -/
def processed_blocks_sweep (elapsed_secs : Nat)
    (entries : List (Nat × Nat)) : List (Nat × Nat) :=
  entries.filter fun e => decide (e.2 > elapsed_secs)

/-- C2 (code bug): one pass of the processed-set sweeper decides removal by
the fec-set-index component, not by any age.  The entry `(1, 5)` — whatever
its age, the set stores none — is removed because `5 ≤ 20`, while `(2, 100)`
is kept forever because `100 > 20`; a third projection shows the outcome is
independent of everything except the fec-set-index. -/
theorem c2_sweep_ignores_age :
    processed_blocks_sweep 20 [(1, 5), (2, 100)] = [(2, 100)]
    ∧ (∀ s s' f, (processed_blocks_sweep 20 [(s, f)]).length
        = (processed_blocks_sweep 20 [(s', f)]).length) := by
  constructor
  · decide
  · intro s s' f
    by_cases hf : 20 < f <;>
      simp [processed_blocks_sweep, List.filter_cons, hf]

/-- A block whose collection started at second 0, for the C3 counterexample. -/
def exFecBlockOld : FecBlock :=
  { FecBlock.new 1 2 with collection_start := some 0 }

/-- C3 (counterexample to the claim as stated): at `now = 25` this block is
25 seconds old — *not* older than 30 seconds, so the claim says the periodic
cleanup retains it — yet the sweep removes it (the task's horizon is 20 s,
not 30 s). -/
theorem c3_counterexample :
    fec_blocks_sweep 25 [((1, 2), exFecBlockOld)] = []
    ∧ 25 - exFecBlockOld.collection_start.getD 0 < 30 := by
  constructor
  · decide
  · decide

/-- C3 (amended): one pass of the periodic cleanup task retains a block iff
its `collection_start` is younger than 20 seconds, and removes it iff it is
20 seconds old or older (the 30-second horizon lives only in the inline
garbage collection inside `add_shred`, which runs when a further shred for
the same key arrives). -/
theorem c3_periodic_sweep_by_age (now : Nat)
    (blocks : List ((Nat × Nat) × FecBlock)) (kv : (Nat × Nat) × FecBlock)
    (t : Nat) (ht : kv.2.collection_start = some t) :
    kv ∈ fec_blocks_sweep now blocks ↔ kv ∈ blocks ∧ now - t < 20 := by
  unfold fec_blocks_sweep
  rw [List.mem_filter, ht]
  simp

/-- A block whose collection started at second 6, for the C3 witness. -/
def exFecBlockYoung : FecBlock :=
  { FecBlock.new 1 2 with collection_start := some 6 }

/-- C3 witness: at `now = 25` a block aged 19 seconds is retained by the
sweep. -/
theorem c3_periodic_sweep_by_age_witness :
    ((1, 2), exFecBlockYoung) ∈
      fec_blocks_sweep 25 [((1, 2), exFecBlockYoung)] :=
  (c3_periodic_sweep_by_age 25 [((1, 2), exFecBlockYoung)]
    ((1, 2), exFecBlockYoung) 6 rfl).mpr ⟨by simp, by decide⟩
